import Mathlib

/-!
Verification of the fleequid-data-parser scripts (`src/get_data_agentic.py`).

The development shallowly embeds the pure content of the script:
strings are `List Char` wrapped in `String`, the CSV storage is a header
plus a list of rows, the browser page and the JSON parser (external
collaborators: Playwright and Python's `json.loads`) are abstract
parameters.  Each Python string primitive used by the script
(`str.replace` with empty replacement, `str.strip`, `str.splitlines`,
`str.split`, `str.find`, `str.rfind`, slicing) is modelled explicitly.
-/

set_option maxRecDepth 8192

namespace Fleequid

/-- Python `str.strip()` whitespace test (the ASCII whitespace characters). -/
def isPySpace (c : Char) : Bool :=
  c == ' ' || c == '\t' || c == '\n' || c == '\r' || c == '\x0b' || c == '\x0c'

/-- Predicate `startsWithL pat s`: holds when `pat` is a leading segment of `s`. -/
def startsWithL : List Char → List Char → Bool
  | [], _ => true
  | _ :: _, [] => false
  | a :: as, b :: bs => a == b && startsWithL as bs

/-- Predicate `hasOccur pat s`: holds when `pat` occurs contiguously inside `s`. -/
def hasOccur (pat : List Char) : List Char → Bool
  | [] => pat.isEmpty
  | c :: rest => startsWithL pat (c :: rest) || hasOccur pat rest

/-- Fuel-indexed scan of Python `str.replace(pat, "")`: non-overlapping
occurrences are removed left to right, scanning resumes after each removed
occurrence.  `fuel ≥ s.length` makes the fuel irrelevant. -/
def removeAllF (pat : List Char) : Nat → List Char → List Char
  | 0, s => s
  | _ + 1, [] => []
  | fuel + 1, c :: rest =>
    if startsWithL pat (c :: rest) then
      removeAllF pat fuel (rest.drop (pat.length - 1))
    else
      c :: removeAllF pat fuel rest

/-- Python `s.replace(pat, "")` for a non-empty `pat`. -/
def removeAll (pat s : List Char) : List Char := removeAllF pat s.length s

/-- Drop leading Python whitespace. -/
def trimL (s : List Char) : List Char := s.dropWhile isPySpace

/-- Drop trailing Python whitespace. -/
def trimR (s : List Char) : List Char := (s.reverse.dropWhile isPySpace).reverse

/-- Python `str.strip()`. -/
def pyStrip (s : List Char) : List Char := trimR (trimL s)

/-- The fence markers removed by `save_result` (line 182). -/
def fenceJson : List Char := "```json".data

/-- The plain fence marker. -/
def fence : List Char := "```".data

/-- Line 182 of `save_result`:
`json_str.replace("```json", "").replace("```", "").strip()`. -/
def stripFences (s : String) : String :=
  String.mk (pyStrip (removeAll fence (removeAll fenceJson s.data)))

/-! ### Basic facts about the string primitives -/

theorem startsWithL_iff (pat s : List Char) :
    startsWithL pat s = true ↔ ∃ t, s = pat ++ t := by
  induction pat generalizing s with
  | nil => simp [startsWithL]
  | cons a as ih =>
    cases s with
    | nil => simp [startsWithL]
    | cons b bs =>
      simp only [startsWithL, Bool.and_eq_true, beq_iff_eq, ih]
      constructor
      · rintro ⟨rfl, t, rfl⟩; exact ⟨t, rfl⟩
      · rintro ⟨t, ht⟩
        cases ht
        exact ⟨rfl, t, rfl⟩

theorem hasOccur_iff (pat s : List Char) :
    hasOccur pat s = true ↔ ∃ a b, s = a ++ pat ++ b := by
  induction s with
  | nil =>
    simp only [hasOccur, List.isEmpty_iff]
    constructor
    · rintro rfl; exact ⟨[], [], rfl⟩
    · rintro ⟨a, b, hab⟩
      rcases List.append_eq_nil.mp (List.append_eq_nil.mp hab.symm).1 with ⟨_, h⟩
      exact h
  | cons c rest ih =>
    simp only [hasOccur, Bool.or_eq_true, startsWithL_iff, ih]
    constructor
    · rintro (⟨t, ht⟩ | ⟨a, b, hab⟩)
      · exact ⟨[], t, by simp [ht]⟩
      · exact ⟨c :: a, b, by simp [hab]⟩
    · rintro ⟨a, b, hab⟩
      cases a with
      | nil => exact Or.inl ⟨b, by simpa using hab⟩
      | cons x a' =>
        right
        refine ⟨a', b, ?_⟩
        have : c = x ∧ rest = a' ++ pat ++ b := by simpa using hab
        exact this.2

theorem hasOccur_false_iff (pat s : List Char) :
    hasOccur pat s = false ↔ ∀ a b, s ≠ a ++ pat ++ b := by
  rw [← Bool.not_eq_true, hasOccur_iff]
  push_neg
  rfl

/-- A pattern with no occurrence is never removed: the scan is the identity. -/
theorem removeAllF_of_no_occur (pat : List Char) :
    ∀ (n : Nat) (s : List Char), hasOccur pat s = false → removeAllF pat n s = s := by
  intro n
  induction n with
  | zero => intro s _; rfl
  | succ n ih =>
    intro s h
    cases s with
    | nil => rfl
    | cons c rest =>
      have h' : (startsWithL pat (c :: rest) || hasOccur pat rest) = false := h
      rcases Bool.or_eq_false_iff.mp h' with ⟨h1, h2⟩
      simp only [removeAllF, h1, Bool.false_eq_true, if_false]
      rw [ih rest h2]

/-- Occurrences survive inside any context, contrapositively: a string with no
occurrence of `pat` has no occurrence inside any of its contiguous pieces. -/
theorem hasOccur_false_of_context (pat a s b : List Char)
    (h : hasOccur pat (a ++ s ++ b) = false) : hasOccur pat s = false := by
  rw [hasOccur_false_iff] at h ⊢
  intro x y hxy
  exact (h (a ++ x) (y ++ b) (by subst hxy; simp)).elim

/-- A longer pattern extending `pat` to the right occurs only where `pat` does. -/
theorem hasOccur_false_of_extends (pat q s : List Char)
    (h : hasOccur pat s = false) : hasOccur (pat ++ q) s = false := by
  rw [hasOccur_false_iff] at h ⊢
  intro a b hab
  exact (h a (q ++ b) (by simpa using hab)).elim

/-- If `r` does not start with `c`, neither does the scan result. -/
theorem startsWith_one_removeAllF (c : Char) (n : Nat) (r : List Char)
    (h : startsWithL [c] r = false) :
    startsWithL [c] (removeAllF [c, c, c] n r) = false := by
  cases n with
  | zero => exact h
  | succ n =>
    cases r with
    | nil => rfl
    | cons d r' =>
      have hcd : (c == d) = false := by
        simpa [startsWithL] using h
      have hsw : startsWithL [c, c, c] (d :: r') = false := by
        simp [startsWithL, hcd]
      simp [removeAllF, hsw, startsWithL, hcd]

/-- If `r` does not start with `c, c`, neither does the scan result. -/
theorem startsWith_two_removeAllF (c : Char) (n : Nat) (r : List Char)
    (h : startsWithL [c, c] r = false) :
    startsWithL [c, c] (removeAllF [c, c, c] n r) = false := by
  cases n with
  | zero => exact h
  | succ n =>
    cases r with
    | nil => rfl
    | cons d r' =>
      by_cases hcd : c = d
      · subst hcd
        have h1 : startsWithL [c] r' = false := by
          simpa [startsWithL] using h
        have h2 : startsWithL [c, c] r' = false := by
          cases r' with
          | nil => rfl
          | cons e t =>
            have he : (c == e) = false := by simpa [startsWithL] using h1
            simp [startsWithL, he]
        have hsw : startsWithL [c, c, c] (c :: r') = false := by
          simp [startsWithL, h2]
        have hrec := startsWith_one_removeAllF c n r' h1
        simp [removeAllF, hsw, startsWithL, h2, hrec]
      · have hcd' : (c == d) = false := beq_eq_false_iff_ne.mpr hcd
        have hsw : startsWithL [c, c, c] (d :: r') = false := by
          simp [startsWithL, hcd']
        simp [removeAllF, hsw, startsWithL, hcd']

/-- Removing every occurrence of the three-character run `c c c` leaves a
string in which `c c c` no longer occurs anywhere (new occurrences cannot be
created by the removals, because the pattern is a run of a single character). -/
theorem hasOccur_removeAllF_triple (c : Char) :
    ∀ (n : Nat) (s : List Char), s.length ≤ n →
      hasOccur [c, c, c] (removeAllF [c, c, c] n s) = false := by
  intro n
  induction n with
  | zero =>
    intro s hs
    rw [List.length_eq_zero.mp (Nat.le_zero.mp hs)]
    rfl
  | succ n ih =>
    intro s hs
    cases s with
    | nil => rfl
    | cons x rest =>
      have hrest : rest.length ≤ n := by
        simpa using Nat.succ_le_succ_iff.mp hs
      by_cases hsw : startsWithL [c, c, c] (x :: rest) = true
      · have hdrop : ∀ k, (rest.drop k).length ≤ n := fun k =>
          le_trans (by rw [List.length_drop]; exact Nat.sub_le _ _) hrest
        simp only [removeAllF, hsw, if_true]
        exact ih _ (hdrop _)
      · have hsw' : startsWithL [c, c, c] (x :: rest) = false := by
          simpa using hsw
        have htail := ih rest hrest
        by_cases hcx : c = x
        · subst hcx
          have h2 : startsWithL [c, c] rest = false := by
            simpa [startsWithL] using hsw'
          have hrm := startsWith_two_removeAllF c n rest h2
          simp [removeAllF, hsw', hasOccur, startsWithL, h2, htail, hrm]
        · have hx : (c == x) = false := beq_eq_false_iff_ne.mpr hcx
          simp [removeAllF, hsw', hasOccur, startsWithL, htail, hx]

/-! ### `str.strip` facts -/

theorem dropWhile_dropWhile (p : Char → Bool) (l : List Char) :
    (l.dropWhile p).dropWhile p = l.dropWhile p := by
  induction l with
  | nil => rfl
  | cons c t ih =>
    by_cases h : p c
    · simp [List.dropWhile_cons, h, ih]
    · simp [List.dropWhile_cons, h]

/-- The function `dropWhile` returns either `[]` or a list whose head fails the predicate. -/
theorem dropWhile_head_false (p : Char → Bool) (l : List Char) :
    l.dropWhile p = [] ∨ ∃ h t, l.dropWhile p = h :: t ∧ p h = false := by
  induction l with
  | nil => exact Or.inl rfl
  | cons c t ih =>
    by_cases h : p c
    · simpa [List.dropWhile_cons, h] using ih
    · exact Or.inr ⟨c, t, by simp [List.dropWhile_cons, h], by simpa using h⟩

/-- A list is its trailing-trimmed part followed by the trimmed-away tail. -/
theorem trimR_context (u : List Char) :
    u = trimR u ++ (u.reverse.takeWhile isPySpace).reverse := by
  have h0 : u.reverse = u.reverse.takeWhile isPySpace ++ u.reverse.dropWhile isPySpace :=
    (List.takeWhile_append_dropWhile ..).symm
  have h3 := congrArg List.reverse h0
  rw [List.reverse_reverse, List.reverse_append] at h3
  exact h3

/-- The stripped string `pyStrip s` sits inside `s`. -/
theorem pyStrip_context (s : List Char) : ∃ a b, s = a ++ pyStrip s ++ b := by
  refine ⟨s.takeWhile isPySpace,
    ((trimL s).reverse.takeWhile isPySpace).reverse, ?_⟩
  have h1 : s = s.takeWhile isPySpace ++ trimL s :=
    (List.takeWhile_append_dropWhile ..).symm
  show s = s.takeWhile isPySpace ++ trimR (trimL s)
      ++ ((trimL s).reverse.takeWhile isPySpace).reverse
  rw [List.append_assoc, ← trimR_context (trimL s)]
  exact h1

theorem trimR_trimR (u : List Char) : trimR (trimR u) = trimR u := by
  unfold trimR
  rw [List.reverse_reverse, dropWhile_dropWhile]

theorem trimL_trimR_trimL (s : List Char) :
    trimL (trimR (trimL s)) = trimR (trimL s) := by
  rcases dropWhile_head_false isPySpace s with h | ⟨h, t, hht, hp⟩
  · show trimL (trimR (s.dropWhile isPySpace)) = trimR (s.dropWhile isPySpace)
    rw [h]
    rfl
  · show trimL (trimR (s.dropWhile isPySpace)) = trimR (s.dropWhile isPySpace)
    rw [hht]
    have hb : h :: t = trimR (h :: t) ++ ((h :: t).reverse.takeWhile isPySpace).reverse :=
      trimR_context (h :: t)
    cases htr : trimR (h :: t) with
    | nil => rfl
    | cons h' t' =>
      rw [htr] at hb
      have hh : h = h' := by simpa using congrArg List.head? hb
      subst hh
      show (h :: t').dropWhile isPySpace = h :: t'
      simp [List.dropWhile_cons, hp]

theorem pyStrip_pyStrip (s : List Char) : pyStrip (pyStrip s) = pyStrip s := by
  show trimR (trimL (trimR (trimL s))) = trimR (trimL s)
  rw [trimL_trimR_trimL, trimR_trimR]

/-- No occurrence in `s` means no occurrence in `pyStrip s`. -/
theorem hasOccur_pyStrip_false (pat s : List Char)
    (h : hasOccur pat s = false) : hasOccur pat (pyStrip s) = false := by
  rcases pyStrip_context s with ⟨a, b, hab⟩
  exact hasOccur_false_of_context pat a _ b (hab ▸ h)

theorem fence_eq : fence = ['\x60', '\x60', '\x60'] := rfl

theorem fenceJson_eq : fenceJson = fence ++ "json".data := rfl

/-- C7 (claim): for every input string, applying the Markdown-fence-stripping
step (removing fence markers and trimming surrounding whitespace) twice yields
the same string as applying it once; in particular, applying it to
already-stripped input leaves the string unchanged. -/
theorem stripFences_idempotent (s : String) :
    stripFences (stripFences s) = stripFences s := by
  set r : List Char := pyStrip (removeAll fence (removeAll fenceJson s.data)) with hr
  have h1 : hasOccur fence (removeAll fence (removeAll fenceJson s.data)) = false := by
    rw [fence_eq]
    exact hasOccur_removeAllF_triple '\x60' _ _ le_rfl
  have h2 : hasOccur fence r = false := hasOccur_pyStrip_false _ _ h1
  have h3 : hasOccur fenceJson r = false := by
    rw [fenceJson_eq]
    exact hasOccur_false_of_extends _ _ _ h2
  have e1 : removeAll fenceJson r = r := removeAllF_of_no_occur _ _ _ h3
  have e2 : removeAll fence r = r := removeAllF_of_no_occur _ _ _ h2
  show String.mk (pyStrip (removeAll fence (removeAll fenceJson r))) = String.mk r
  rw [e1, e2, hr, pyStrip_pyStrip]

/-! ### The persist stage: `save_result` (lines 180-207)

Python's `json.loads` is an external library call; it is abstracted as a
`parse : String → Option JsonVal` parameter (`none` models a
`JSONDecodeError`).  The CSV storage is a header plus data rows; pandas'
`NaN` cells are written as empty cells, the blank marker `""`. -/

/-- A parsed JSON value.  Object member values are kept as the strings that
pandas will render into the CSV cells. -/
inductive JsonVal where
  | obj : List (String × String) → JsonVal
  | arr : List String → JsonVal
  | str : String → JsonVal
  | num : Int → JsonVal
  | bool : Bool → JsonVal
  | null : JsonVal
deriving DecidableEq

/-- Python `isinstance(d, dict)`: only objects support `.update`. -/
def JsonVal.isObj : JsonVal → Bool
  | .obj _ => true
  | _ => false

/-- The persisted tabular storage: ordered header and data rows. -/
structure Csv where
  header : List String
  rows : List (List String)
deriving DecidableEq

/-- Python `str.find(c)`: index of the first occurrence, `-1` when absent. -/
def pyFind (c : Char) (s : List Char) : Int :=
  match s.findIdx? (· == c) with
  | some i => (i : Int)
  | none => -1

/-- Index of the last occurrence of `c` in `s`, if any. -/
def lastIdx (c : Char) (s : List Char) : Option Nat :=
  (s.reverse.findIdx? (· == c)).map (fun i => s.length - 1 - i)

/-- Python `str.rfind(c)`: index of the last occurrence, `-1` when absent. -/
def pyRFind (c : Char) (s : List Char) : Int :=
  match lastIdx c s with
  | some j => (j : Int)
  | none => -1

/-- Python `s[i:j]` for non-negative bounds (the only case the script
exercises: `start` is a `find` result, `end` is `rfind(...) + 1 ≥ 0`). -/
def pySlice (s : List Char) (i j : Int) : List Char :=
  (s.take j.toNat).drop i.toNat

/-- Lines 188-192: the brace-scanning recovery candidate.  `start` is
`json_str.find('{')`, `stop` is `json_str.rfind('}') + 1`, and the guard
tests both against `-1`.  (Note `stop` can never equal `-1`: `rfind` is at
least `-1`, so `stop ≥ 0`; the guard is effectively `start != -1`.) -/
def recoverCandidate (s : List Char) : Option (List Char) :=
  let start := pyFind '\x7b' s
  let stop := pyRFind '\x7d' s + 1
  if start ≠ -1 ∧ stop ≠ -1 then some (pySlice s start stop) else none

/-- One `json.loads` attempt: a failure is a `JSONDecodeError`. -/
def parseRecovered (parse : String → Option JsonVal) (s : String) :
    Except String JsonVal :=
  match parse s with
  | some d => .ok d
  | none => .error "JSONDecodeError"

/-- Lines 184-193: direct `json.loads` on the stripped string, falling back
to the brace-scanning recovery; if the guard fails the original decode error
is re-raised. -/
def parseStep (parse : String → Option JsonVal) (s : String) :
    Except String JsonVal :=
  match parse s with
  | some d => .ok d
  | none =>
    match recoverCandidate s.data with
    | some sub => parseRecovered parse (String.mk sub)
    | none => .error "JSONDecodeError"

/-- First-occurrence association lookup: Python dict access for a dict given
by its item list. -/
def lookupA (l : List (String × String)) (k : String) : Option String :=
  (l.find? (fun p => p.1 == k)).map Prod.snd

/-- How `data.update(static_data)` rewrites one existing item of `data`. -/
def updEntry (t : List (String × String)) (p : String × String) :
    String × String :=
  match lookupA t p.1 with
  | some v => (p.1, v)
  | none => p

/-- Line 195, `data.update(static_data)` on dicts given as item lists:
existing keys are overwritten in place, new keys are appended in order. -/
def dictUpdate (m t : List (String × String)) : List (String × String) :=
  m.map (updEntry t) ++ t.filter (fun p => (lookupA m p.1).isNone)

/-- Lines 198-201: `pd.DataFrame([data])` reindexed to the schema columns:
schema columns missing from the mapping become the blank marker (pandas
`NaN`, an empty CSV cell) and mapping keys outside the schema are dropped by
the `df_final[schema_cols]` selection. -/
def mergeRow (data : List (String × String)) (schema : List String) :
    List String :=
  schema.map (fun c => (lookupA data c).getD "")

/-- Lines 195-203 after a successful parse: merge the static fields over the
model mapping, reindex to the schema read back from the storage header, and
append exactly one row with no header (`to_csv(mode='a', header=False)`).
A non-dict parse result fails like Python's `AttributeError` raised by
`data.update`. -/
def afterParse (data : JsonVal) (static : List (String × String))
    (csv : Csv) : Except String Csv :=
  match data with
  | .obj m =>
    .ok { header := csv.header,
          rows := csv.rows ++ [mergeRow (dictUpdate m static) csv.header] }
  | _ => .error "AttributeError"

/-- What `save_result` does once the recovery substring is chosen: parse it
and use the result for the merge and append. -/
def recoveredAttempt (parse : String → Option JsonVal) (sub : String)
    (static : List (String × String)) (csv : Csv) : Except String Csv :=
  (parseRecovered parse sub).bind (fun d => afterParse d static csv)

/-- The body of `save_result`'s outer `try` (lines 181-204). -/
def saveResultCore (parse : String → Option JsonVal) (jsonStr : String)
    (static : List (String × String)) (csv : Csv) : Except String Csv :=
  (parseStep parse (stripFences jsonStr)).bind
    (fun d => afterParse d static csv)

/-- Line 207's log line.  It interpolates `json_str` — which was reassigned
to its fence-stripped form on line 182. -/
def errorLog (e : String) (strippedStr : String) : String :=
  "Error saving result: " ++ e ++ "\nRaw LLM Output:\n" ++ strippedStr

/-- Function `save_result` (lines 180-207): every failure of the stage is caught; on
failure the storage is untouched and one error line is logged; on success
the appended storage and one info line result. -/
def save_result (parse : String → Option JsonVal) (jsonStr : String)
    (static : List (String × String)) (csv : Csv) : Csv × List String :=
  match saveResultCore parse jsonStr static csv with
  | .ok csv' => (csv', ["Data appended to output/auction_data.csv"])
  | .error e => (csv, [errorLog e (stripFences jsonStr)])

/-! ### Lookup facts about the merge -/

theorem find?_append {α : Type} (l₁ l₂ : List α) (p : α → Bool) :
    (l₁ ++ l₂).find? p =
      match l₁.find? p with
      | some x => some x
      | none => l₂.find? p := by
  induction l₁ with
  | nil => simp
  | cons a l ih =>
    by_cases h : p a
    · simp [List.find?_cons, h]
    · simp only [List.cons_append, List.find?_cons, h]
      simpa [h] using ih

theorem updEntry_key (t : List (String × String)) (p : String × String) :
    (updEntry t p).1 = p.1 := by
  cases h : lookupA t p.1 <;> simp [updEntry, h]

theorem find?_map_updEntry (t : List (String × String))
    (m : List (String × String)) (k : String) :
    (m.map (updEntry t)).find? (fun p => p.1 == k) =
      (m.find? (fun p => p.1 == k)).map (updEntry t) := by
  induction m with
  | nil => simp
  | cons p m' ih =>
    by_cases h : p.1 = k
    · simp [List.find?_cons, updEntry_key, h]
    · have h' : (p.1 == k) = false := beq_eq_false_iff_ne.mpr h
      simp only [List.map_cons, List.find?_cons, updEntry_key, h']
      exact ih

theorem find?_filter_keyed (g : String × String → Bool) (k : String) :
    ∀ t : List (String × String), (∀ q ∈ t, q.1 = k → g q = true) →
      (t.filter g).find? (fun p => p.1 == k) =
        t.find? (fun p => p.1 == k) := by
  intro t
  induction t with
  | nil => simp
  | cons q t' ih =>
    intro h
    have ih' := ih (fun q' hq' => h q' (List.mem_cons_of_mem _ hq'))
    by_cases hk : q.1 = k
    · have hg : g q = true := h q (List.mem_cons_self _ _) hk
      simp [List.filter_cons, hg, List.find?_cons, hk]
    · have hk' : (q.1 == k) = false := beq_eq_false_iff_ne.mpr hk
      by_cases hg : g q = true
      · simp only [List.filter_cons, hg, if_true, List.find?_cons, hk']
        exact ih'
      · simp only [List.filter_cons, hg, if_false, List.find?_cons, hk']
        exact ih'

/-- The dict produced by `data.update(static_data)` answers lookups with the
static value when present, the model value otherwise. -/
theorem lookupA_dictUpdate (m t : List (String × String)) (k : String) :
    lookupA (dictUpdate m t) k =
      match lookupA t k with
      | some v => some v
      | none => lookupA m k := by
  have hgoal : lookupA (dictUpdate m t) k =
      ((m.map (updEntry t) ++ t.filter fun p => (lookupA m p.1).isNone).find?
        (fun p => p.1 == k)).map Prod.snd := rfl
  rw [hgoal, find?_append, find?_map_updEntry]
  cases hm : m.find? (fun p => p.1 == k) with
  | some p₀ =>
    have hp₀ : p₀.1 = k := by simpa using List.find?_some hm
    cases ht : t.find? (fun p => p.1 == k) with
    | some q₀ =>
      have h1 : lookupA t p₀.1 = some q₀.2 := by
        unfold lookupA; rw [hp₀, ht]; rfl
      have h2 : lookupA t k = some q₀.2 := by
        unfold lookupA; rw [ht]; rfl
      simp [updEntry, h1, h2]
    | none =>
      have h1 : lookupA t p₀.1 = none := by
        unfold lookupA; rw [hp₀, ht]; rfl
      have h2 : lookupA t k = none := by
        unfold lookupA; rw [ht]; rfl
      have h3 : lookupA m k = some p₀.2 := by
        unfold lookupA; rw [hm]; rfl
      simp [updEntry, h1, h2, h3]
  | none =>
    have h4 : ∀ q ∈ t, q.1 = k → (fun p => (lookupA m p.1).isNone) q = true := by
      intro q _ hq
      have h5 : lookupA m q.1 = none := by
        unfold lookupA; rw [hq, hm]; rfl
      simp [h5]
    rw [find?_filter_keyed _ _ _ h4]
    have h2 : lookupA m k = none := by
      unfold lookupA; rw [hm]; rfl
    cases ht : t.find? (fun p => p.1 == k) with
    | some q₀ =>
      have h5 : lookupA t k = some q₀.2 := by
        unfold lookupA; rw [ht]; rfl
      simp [h5]
    | none =>
      have h5 : lookupA t k = none := by
        unfold lookupA; rw [ht]; rfl
      simp [h5, h2]

/-! ### Facts about the brace-scanning recovery -/

theorem pyRFind_ge_neg_one (c : Char) (s : List Char) : -1 ≤ pyRFind c s := by
  unfold pyRFind
  cases lastIdx c s with
  | some j => simp; omega
  | none => simp

theorem recoverCandidate_of_none (s : List Char)
    (h : s.findIdx? (· == '\x7b') = none) : recoverCandidate s = none := by
  unfold recoverCandidate pyFind
  rw [h]
  simp

theorem recoverCandidate_of_some (s : List Char) (i : Nat)
    (h : s.findIdx? (· == '\x7b') = some i) :
    recoverCandidate s = some (pySlice s i (pyRFind '\x7d' s + 1)) := by
  unfold recoverCandidate pyFind
  rw [h]
  have h1 : (i : Int) ≠ -1 := by omega
  have h2 : pyRFind '\x7d' s + 1 ≠ -1 := by
    have := pyRFind_ge_neg_one '\x7d' s
    omega
  simp [h1, h2]

theorem pySlice_nil_of_le (s : List Char) (i j : Int) (h : j ≤ i) :
    pySlice s i j = [] := by
  unfold pySlice
  have h1 : j.toNat ≤ i.toNat := Int.toNat_le_toNat h
  apply List.drop_eq_nil_of_le
  calc (s.take j.toNat).length ≤ j.toNat := by
        rw [List.length_take]; exact min_le_left _ _
    _ ≤ i.toNat := h1

/-! ### Claim C1 -/

/-- C1 (claim): for every schema column list `S` (the storage header), every
model-derived mapping `m` (parsed from the model output) and every static
mapping `t`, `save_result` appends exactly one row and no header row; the
appended row ranges over exactly the schema columns in schema order, a
column present in both `t` and `m` takes `t`'s value, schema columns absent
from both get the blank marker `""`, and keys of `m` or `t` outside the
schema do not appear anywhere in the appended row. -/
theorem save_result_appends_schema_row
    (parse : String → Option JsonVal) (raw : String)
    (m t : List (String × String)) (csv : Csv)
    (h : parse (stripFences raw) = some (.obj m)) :
    save_result parse raw t csv =
      ({ header := csv.header,
         rows := csv.rows ++ [csv.header.map (fun c =>
           match lookupA t c with
           | some v => v
           | none =>
             match lookupA m c with
             | some v => v
             | none => "")] },
       ["Data appended to output/auction_data.csv"]) := by
  have hf : (fun c => (lookupA (dictUpdate m t) c).getD "") = (fun c =>
      match lookupA t c with
      | some v => v
      | none =>
        match lookupA m c with
        | some v => v
        | none => "") := by
    funext c
    rw [lookupA_dictUpdate]
    cases lookupA t c with
    | some v => rfl
    | none => cases lookupA m c with | some v => rfl | none => rfl
  have hrow : mergeRow (dictUpdate m t) csv.header = csv.header.map (fun c =>
      match lookupA t c with
      | some v => v
      | none =>
        match lookupA m c with
        | some v => v
        | none => "") := by
    unfold mergeRow
    rw [hf]
  have hres : save_result parse raw t csv =
      ({ header := csv.header,
         rows := csv.rows ++ [mergeRow (dictUpdate m t) csv.header] },
       ["Data appended to output/auction_data.csv"]) := by
    unfold save_result saveResultCore parseStep
    rw [h]
    rfl
  rw [hres, hrow]

/-- A concrete stand-in for `json.loads`, defined on the one JSON text the
C1 scenario exercises. -/
def sampleParse1 : String → Option JsonVal := fun s =>
  if s = "\x7b\"Mileage\":\"500,000 km\",\"Name\":\"ignored\"\x7d" then
    some (.obj [("Mileage", "500,000 km"), ("Name", "ignored")])
  else none

/-- C1 witness, the spec §8 scenario: schema `Reference,Name,Mileage`,
static `Reference=abc-123, Name=Test Bus`, fenced model output mapping
`Mileage` and a conflicting `Name`; the appended row is
`abc-123, Test Bus, 500,000 km`. -/
theorem save_result_appends_schema_row_witness :
    save_result sampleParse1
        "```json\n\x7b\"Mileage\":\"500,000 km\",\"Name\":\"ignored\"\x7d\n```"
        [("Reference", "abc-123"), ("Name", "Test Bus")]
        ⟨["Reference", "Name", "Mileage"], []⟩ =
      (⟨["Reference", "Name", "Mileage"],
        [["abc-123", "Test Bus", "500,000 km"]]⟩,
       ["Data appended to output/auction_data.csv"]) :=
  (save_result_appends_schema_row sampleParse1
      "```json\n\x7b\"Mileage\":\"500,000 km\",\"Name\":\"ignored\"\x7d\n```"
      [("Mileage", "500,000 km"), ("Name", "ignored")]
      [("Reference", "abc-123"), ("Name", "Test Bus")]
      ⟨["Reference", "Name", "Mileage"], []⟩ (by decide)).trans
    (by decide)

/-! ### Claim C2 -/

/-- C2 (claim): for every model-output string on which direct JSON parsing
(after fence stripping) fails, the persister parses exactly the substring
from the first `{` to the last `}` inclusive and uses the result; and for
every such string without such a boundary pair of braces, the parsing
failure propagates out of the recovery step: the stage logs the decode
error and no row is persisted for the record. -/
theorem save_result_recovery (parse : String → Option JsonVal)
    (raw : String) (static : List (String × String)) (csv : Csv)
    (hempty : parse "" = none)
    (hfail : parse (stripFences raw) = none) :
    (∀ i j, (stripFences raw).data.findIdx? (· == '\x7b') = some i →
        lastIdx '\x7d' (stripFences raw).data = some j → i ≤ j →
        saveResultCore parse raw static csv =
          recoveredAttempt parse
            (String.mk (pySlice (stripFences raw).data i (j + 1)))
            static csv)
    ∧ ((¬ ∃ i j, (stripFences raw).data.findIdx? (· == '\x7b') = some i ∧
          lastIdx '\x7d' (stripFences raw).data = some j ∧ i ≤ j) →
        save_result parse raw static csv =
          (csv, [errorLog "JSONDecodeError" (stripFences raw)])) := by
  constructor
  · intro i j hi hj hij
    have hr : pyRFind '\x7d' (stripFences raw).data = (j : Int) := by
      unfold pyRFind
      rw [hj]
    unfold saveResultCore parseStep
    rw [hfail, recoverCandidate_of_some _ _ hi, hr]
    rfl
  · intro hno
    cases hfi : (stripFences raw).data.findIdx? (· == '\x7b') with
    | none =>
      have hrc := recoverCandidate_of_none _ hfi
      unfold save_result saveResultCore parseStep
      rw [hfail, hrc]
      rfl
    | some i =>
      have hrc := recoverCandidate_of_some _ _ hfi
      cases hla : lastIdx '\x7d' (stripFences raw).data with
      | none =>
        have hr : pyRFind '\x7d' (stripFences raw).data = -1 := by
          unfold pyRFind
          rw [hla]
        have hsub : pySlice (stripFences raw).data i
            (pyRFind '\x7d' (stripFences raw).data + 1) = [] := by
          rw [hr]
          exact pySlice_nil_of_le _ _ _ (by omega)
        have hps : parseStep parse (stripFences raw) =
            Except.error "JSONDecodeError" := by
          unfold parseStep
          rw [hfail, hrc, hsub]
          show parseRecovered parse (String.mk []) = Except.error "JSONDecodeError"
          unfold parseRecovered
          rw [show parse (String.mk []) = none from hempty]
        unfold save_result saveResultCore
        rw [hps]
        rfl
      | some j =>
        have hij : ¬ i ≤ j := fun hle => hno ⟨i, j, hfi, hla, hle⟩
        have hr : pyRFind '\x7d' (stripFences raw).data = (j : Int) := by
          unfold pyRFind
          rw [hla]
        have hsub : pySlice (stripFences raw).data i
            (pyRFind '\x7d' (stripFences raw).data + 1) = [] := by
          rw [hr]
          exact pySlice_nil_of_le _ _ _ (by omega)
        have hps : parseStep parse (stripFences raw) =
            Except.error "JSONDecodeError" := by
          unfold parseStep
          rw [hfail, hrc, hsub]
          show parseRecovered parse (String.mk []) = Except.error "JSONDecodeError"
          unfold parseRecovered
          rw [show parse (String.mk []) = none from hempty]
        unfold save_result saveResultCore
        rw [hps]
        rfl

/-- A concrete stand-in for `json.loads`, defined on the one JSON text the
C2 scenario exercises. -/
def sampleParse2 : String → Option JsonVal := fun s =>
  if s = "\x7b\"Reference\":\"x\"\x7d" then some (.obj [("Reference", "x")])
  else none

/-- C2 witness, the spec §8 scenario: prose-wrapped model output; the
recovery parses exactly the brace-delimited substring. -/
theorem save_result_recovery_witness :
    saveResultCore sampleParse2
        "Sure! Here is the data: \x7b\"Reference\":\"x\"\x7d Hope that helps!"
        [] ⟨["Reference"], []⟩ =
      recoveredAttempt sampleParse2 "\x7b\"Reference\":\"x\"\x7d"
        [] ⟨["Reference"], []⟩ :=
  (((save_result_recovery sampleParse2
      "Sure! Here is the data: \x7b\"Reference\":\"x\"\x7d Hope that helps!"
      [] ⟨["Reference"], []⟩ (by decide) (by decide)).1
    24 40 (by decide) (by decide) (by decide)).trans (by rfl))

/-! ### Claim C4 -/

theorem hasOccur_append_self (pat a : List Char) :
    hasOccur pat (a ++ pat) = true :=
  (hasOccur_iff pat (a ++ pat)).mpr ⟨a, [], by simp⟩

/-- C4 (amended): every failure inside the persist stage is caught there:
the stage emits exactly one error log line, that line carries the offending
string as it stands after fence stripping (the spec's "raw" string is
logged only in stripped form, since `json_str` is reassigned on line 182),
the storage is unchanged — no row is persisted — and no exception escapes. -/
theorem save_result_failure_logged (parse : String → Option JsonVal)
    (raw : String) (static : List (String × String)) (csv : Csv) (e : String)
    (h : saveResultCore parse raw static csv = .error e) :
    save_result parse raw static csv = (csv, [errorLog e (stripFences raw)])
    ∧ hasOccur (stripFences raw).data
        (errorLog e (stripFences raw)).data = true := by
  constructor
  · unfold save_result
    rw [h]
  · have hd : (errorLog e (stripFences raw)).data =
        ("Error saving result: " ++ e ++ "\nRaw LLM Output:\n").data
          ++ (stripFences raw).data := by
      unfold errorLog
      simp [String.data_append]
    rw [hd]
    exact hasOccur_append_self _ _

/-- C4 witness: an unparseable fence-free output is logged verbatim and
nothing is persisted. -/
theorem save_result_failure_logged_witness :
    save_result (fun _ => none) "oops" [] ⟨["Reference"], []⟩
      = (⟨["Reference"], []⟩, [errorLog "JSONDecodeError" (stripFences "oops")])
    ∧ hasOccur (stripFences "oops").data
        (errorLog "JSONDecodeError" (stripFences "oops")).data = true :=
  save_result_failure_logged (fun _ => none) "oops" [] ⟨["Reference"], []⟩
    "JSONDecodeError" (by rfl)

/-- C4 (counterexample): with fenced unparseable model output, the single
log line does **not** contain the raw offending string — only its
fence-stripped form — refuting "logged together with the raw offending
string". -/
theorem save_result_raw_log_counterexample :
    save_result (fun _ => none) "```json\nnotjson" [] ⟨["Reference", "Name"], []⟩
      = (⟨["Reference", "Name"], []⟩, [errorLog "JSONDecodeError" "notjson"])
    ∧ hasOccur "```json\nnotjson".data
        (errorLog "JSONDecodeError" "notjson").data = false := by
  constructor
  · rfl
  · decide

/-! ### Claim C10 -/

/-- C10 (claim): when the (possibly brace-recovered) parse succeeds with a
value that is not a JSON object, the merge with the static fields fails
(Python's `AttributeError` from `data.update`), the failure is caught and
logged by the stage, no row is appended, and no exception propagates. -/
theorem save_result_non_object (parse : String → Option JsonVal)
    (raw : String) (static : List (String × String)) (csv : Csv)
    (d : JsonVal) (hp : parseStep parse (stripFences raw) = .ok d)
    (hobj : d.isObj = false) :
    save_result parse raw static csv =
      (csv, [errorLog "AttributeError" (stripFences raw)]) := by
  have hap : afterParse d static csv = .error "AttributeError" := by
    cases d with
    | obj ms => simp [JsonVal.isObj] at hobj
    | arr l => rfl
    | str s => rfl
    | num n => rfl
    | bool b => rfl
    | null => rfl
  have hcore : saveResultCore parse raw static csv = .error "AttributeError" := by
    unfold saveResultCore
    rw [hp]
    exact hap
  unfold save_result
  rw [hcore]

/-- C10 witness: a model output parsing to a top-level array is caught and
logged; the storage is untouched. -/
theorem save_result_non_object_witness :
    save_result (fun _ => some (JsonVal.arr ["1", "2"])) "[1, 2]" []
        ⟨["Reference"], []⟩
      = (⟨["Reference"], []⟩,
         [errorLog "AttributeError" (stripFences "[1, 2]")]) :=
  save_result_non_object (fun _ => some (JsonVal.arr ["1", "2"])) "[1, 2]" []
    ⟨["Reference"], []⟩ (JsonVal.arr ["1", "2"]) (by rfl) (by rfl)

/-! ### The schema loader: `get_target_schema` (lines 27-37) -/

/-- The bits of filesystem state the loader touches: whether `output/`
exists and the storage file's tabular content (`none` = missing file). -/
structure FsState where
  dirExists : Bool
  file : Option Csv
deriving DecidableEq

/-- Function `get_target_schema` (lines 27-37): `os.makedirs(..., exist_ok=True)`
ensures the parent directory; a missing storage file is created with the
default header `Reference,Name` and no data rows
(`pd.DataFrame(columns=["Reference", "Name"]).to_csv(index=False)`);
the file is then read back with `pd.read_csv` and its ordered column list
is returned. -/
def get_target_schema (fs : FsState) : FsState × List String :=
  match fs.file with
  | none =>
    let csv : Csv := { header := ["Reference", "Name"], rows := [] }
    ({ dirExists := true, file := some csv }, csv.header)
  | some csv => ({ dirExists := true, file := some csv }, csv.header)

/-- C5 (claim): when the storage file does not exist at startup the loader
creates the parent directory if missing, creates the file with exactly the
header row `Reference,Name` and no data rows, raises no error (it is a
total function of the filesystem state), and returns
`["Reference", "Name"]`; when the file exists it returns the file's
ordered column list unchanged. -/
theorem get_target_schema_spec (fs : FsState) :
    (fs.file = none →
      get_target_schema fs =
        ({ dirExists := true,
           file := some { header := ["Reference", "Name"], rows := [] } },
         ["Reference", "Name"]))
    ∧ (∀ csv, fs.file = some csv →
        get_target_schema fs =
          ({ dirExists := true, file := some csv }, csv.header)) := by
  constructor
  · intro h
    unfold get_target_schema
    rw [h]
  · intro csv h
    unfold get_target_schema
    rw [h]

/-- C5 witness: a missing file on a missing directory, and an existing file
with extra columns. -/
theorem get_target_schema_spec_witness :
    get_target_schema ⟨false, none⟩ =
      ({ dirExists := true,
         file := some { header := ["Reference", "Name"], rows := [] } },
       ["Reference", "Name"])
    ∧ get_target_schema ⟨true, some ⟨["Reference", "Name", "Mileage"], []⟩⟩ =
      ({ dirExists := true, file := some ⟨["Reference", "Name", "Mileage"], []⟩ },
       ["Reference", "Name", "Mileage"]) :=
  ⟨(get_target_schema_spec ⟨false, none⟩).1 rfl,
   (get_target_schema_spec ⟨true, some ⟨["Reference", "Name", "Mileage"], []⟩⟩).2
     ⟨["Reference", "Name", "Mileage"], []⟩ rfl⟩

/-! ### The section-expansion loop (lines 72-89)

The browser page is abstract: `count` models
`page.locator(plus_selector).count()` and `click` models
`pluses.first.click(force=True, timeout=2000)` followed by the settle
delay, with `none` standing for a raised click error. -/

/-- The loop of lines 76-89: up to `fuel` iterations; zero matching
controls breaks out; a click failure is caught (warned) and breaks out;
a successful click counts one activation and re-queries from scratch.
Returns the final page state and the number of activations. -/
def expandLoop {σ : Type} (count : σ → Nat) (click : σ → Option σ) :
    Nat → σ → σ × Nat
  | 0, st => (st, 0)
  | fuel + 1, st =>
    if count st = 0 then (st, 0)
    else
      match click st with
      | none => (st, 0)
      | some st' =>
        let r := expandLoop count click fuel st'
        (r.1, r.2 + 1)

/-- Line 72: `max_loops = 20`. -/
def maxLoops : Nat := 20

theorem expandLoop_activations_le {σ : Type} (count : σ → Nat)
    (click : σ → Option σ) :
    ∀ (n : Nat) (st : σ), (expandLoop count click n st).2 ≤ n := by
  intro n
  induction n with
  | zero =>
    intro st
    exact Nat.le_refl 0
  | succ n ih =>
    intro st
    unfold expandLoop
    by_cases h : count st = 0
    · simp [h]
    · simp only [h, if_false]
      cases hc : click st with
      | none => simp
      | some st' =>
        simpa using Nat.succ_le_succ (ih st')

/-- C6 (claim): the section-expansion loop performs at most 20 activations
for every page; with zero expansion controls at the first query it
terminates immediately with zero activations; and when activating the first
located control fails the loop exits early, returning normally (no error)
with the expansion achieved so far. -/
theorem expand_loop_bounded {σ : Type} (count : σ → Nat)
    (click : σ → Option σ) (st : σ) :
    ((expandLoop count click maxLoops st).2 ≤ 20)
    ∧ (count st = 0 → expandLoop count click maxLoops st = (st, 0))
    ∧ (count st ≠ 0 → click st = none →
        expandLoop count click maxLoops st = (st, 0)) := by
  refine ⟨expandLoop_activations_le count click maxLoops st, ?_, ?_⟩
  · intro h
    unfold maxLoops expandLoop
    rw [if_pos h]
  · intro h hc
    unfold maxLoops expandLoop
    rw [if_neg h, hc]

/-- A toy page whose state is the number of remaining expansion controls. -/
def c6Count : Nat → Nat := fun st => st

/-- Clicking expands one section. -/
def c6Click : Nat → Option Nat := fun st => if st = 0 then none else some (st - 1)

/-- Clicking always raises (stale element). -/
def c6ClickFail : Nat → Option Nat := fun _ => none

/-- C6 witness: a page with no expansion controls stops at once with zero
activations, and a page whose first click fails stops early without error. -/
theorem expand_loop_bounded_witness :
    expandLoop c6Count c6Click maxLoops 0 = (0, 0)
    ∧ expandLoop c6Count c6ClickFail maxLoops 3 = (3, 0) :=
  ⟨(expand_loop_bounded c6Count c6Click 0).2.1 rfl,
   (expand_loop_bounded c6Count c6ClickFail 3).2.2 (by decide) rfl⟩

/-! ### Static extraction: `get_static_data` (lines 39-49) -/

/-- Function `get_static_data` (lines 39-49) over an abstract
`page.eval_on_selector`: the evaluation either yields the element text or
raises (`Except.error`).  The source has no `try` here: either failure
propagates out of the function. -/
def get_static_data (evalSel : String → Except String String) :
    Except String (List (String × String)) :=
  match evalSel "span.select-all" with
  | .error e => .error e
  | .ok reference =>
    match evalSel "h1.text-highlighted" with
    | .error e => .error e
    | .ok name => .ok [("Reference", reference), ("Name", name)]

/-- Lines 53 and 105-107: `scrape_dynamic_content` wraps its body in a
`try/except` that logs the error and re-raises, so a static-extraction
failure still aborts the run. -/
def scrape_static_phase (evalSel : String → Except String String) :
    Except String (List (String × String)) × List String :=
  match get_static_data evalSel with
  | .error e => (.error e, ["Error scraping dynamic content: " ++ e])
  | .ok d => (.ok d, ["Static info retrieved."])

/-- C3 (counterexample): on a page where the static selectors match no
element, the failed extraction is **not** caught and no placeholder record
results; the error propagates and `scrape_dynamic_content` re-raises it. -/
theorem get_static_data_no_catch_counterexample :
    (¬ ∃ d, get_static_data (fun _ => .error "no element") = .ok d)
    ∧ scrape_static_phase (fun _ => .error "no element")
        = (.error "no element",
           ["Error scraping dynamic content: no element"]) := by
  constructor
  · rintro ⟨d, hd⟩
    have h : get_static_data (fun _ => .error "no element")
        = .error "no element" := rfl
    rw [h] at hd
    exact Except.noConfusion hd
  · rfl

/-- C3 (amended): a miss of the static Reference selector or of the static
Name selector raises; the exception propagates out of `get_static_data`
uncaught (no null placeholder), and `scrape_dynamic_content` logs it and
re-raises, aborting the run. -/
theorem get_static_data_propagates (evalSel : String → Except String String)
    (e : String) :
    (evalSel "span.select-all" = .error e →
      get_static_data evalSel = .error e
      ∧ (scrape_static_phase evalSel).1 = .error e)
    ∧ (∀ r, evalSel "span.select-all" = .ok r →
        evalSel "h1.text-highlighted" = .error e →
        get_static_data evalSel = .error e
        ∧ (scrape_static_phase evalSel).1 = .error e) := by
  constructor
  · intro h
    have hg : get_static_data evalSel = .error e := by
      unfold get_static_data
      rw [h]
    refine ⟨hg, ?_⟩
    unfold scrape_static_phase
    rw [hg]
  · intro r h1 h2
    have hg : get_static_data evalSel = .error e := by
      unfold get_static_data
      rw [h1, h2]
    refine ⟨hg, ?_⟩
    unfold scrape_static_phase
    rw [hg]

/-- C3 (amended) witness: the Reference selector matches but the Name
selector misses; the miss aborts the phase. -/
theorem get_static_data_propagates_witness :
    get_static_data (fun sel => if sel = "span.select-all"
        then .ok "FLQ-1" else .error "timeout") = .error "timeout"
    ∧ (scrape_static_phase (fun sel => if sel = "span.select-all"
        then .ok "FLQ-1" else .error "timeout")).1 = .error "timeout" :=
  (get_static_data_propagates
      (fun sel => if sel = "span.select-all"
        then .ok "FLQ-1" else .error "timeout") "timeout").2
    "FLQ-1" (by rfl) (by rfl)

/-! ### The main pipeline's snapshot slicing (lines 210-218) -/

/-- Split at the first occurrence of `sep`: `some (before, after)` when
`sep` occurs in `s`, with `after` strictly following that occurrence. -/
def splitFirst (sep : List Char) : List Char → Option (List Char × List Char)
  | [] => if sep.isEmpty then some ([], []) else none
  | c :: rest =>
    if startsWithL sep (c :: rest) then some ([], (c :: rest).drop sep.length)
    else (splitFirst sep rest).map (fun p => (c :: p.1, p.2))

/-- Fuel-indexed Python `str.split(sep)` for a non-empty separator; any
`fuel ≥ s.length` gives the real value. -/
def pySplitF (sep : List Char) : Nat → List Char → List (List Char)
  | 0, s => [s]
  | fuel + 1, s =>
    match splitFirst sep s with
    | none => [s]
    | some (b, a) => b :: pySplitF sep fuel a

/-- Python `s.split(sep)` for a non-empty separator. -/
def pySplit (sep s : List Char) : List (List Char) := pySplitF sep s.length s

/-- The separator hard-coded on line 216. -/
def sepMarker : List Char := "88/89".data

/-- Line 216: `html.split("88/89")[1]` — the text passed to
`analyze_with_llm`.  `none` models the uncaught `IndexError` that aborts
the run before the field-mapping step. -/
def mainLlmInput (html : String) : Option String :=
  ((pySplit sepMarker html.data).get? 1).map String.mk

/-- The text strictly after the first occurrence of `sep`, when present. -/
def afterFirstOcc (sep s : List Char) : Option (List Char) :=
  (splitFirst sep s).map Prod.snd

/-- The prefix before the first occurrence of `sep` (all of `s` when `sep`
does not occur). -/
def beforeFirstOcc (sep s : List Char) : List Char :=
  match splitFirst sep s with
  | some p => p.1
  | none => s

theorem splitFirst_after_lt (sep : List Char) (hsep : sep ≠ []) :
    ∀ s b a, splitFirst sep s = some (b, a) → a.length < s.length := by
  intro s
  induction s with
  | nil =>
    intro b a h
    have : sep.isEmpty = false := by
      cases sep with
      | nil => exact absurd rfl hsep
      | cons x xs => rfl
    simp [splitFirst, this] at h
  | cons c rest ih =>
    intro b a h
    by_cases hs : startsWithL sep (c :: rest) = true
    · simp only [splitFirst, hs, if_true, Option.some.injEq, Prod.mk.injEq] at h
      have ha : a = (c :: rest).drop sep.length := h.2.symm
      have hpos : 0 < sep.length := List.length_pos.mpr hsep
      subst ha
      rw [List.length_drop]
      simp only [List.length_cons]
      omega
    · have hs' : startsWithL sep (c :: rest) = false := by simpa using hs
      simp only [splitFirst, hs', Bool.false_eq_true, if_false] at h
      cases hrec : splitFirst sep rest with
      | none => rw [hrec] at h; simp at h
      | some p =>
        rw [hrec] at h
        cases p with
        | mk b' a' =>
          simp only [Option.map_some', Option.some.injEq, Prod.mk.injEq] at h
          have := ih b' a' hrec
          have ha : a = a' := h.2.symm
          subst ha
          simp only [List.length_cons]
          omega

theorem pySplitF_of_none (sep : List Char) (n : Nat) (s : List Char)
    (h : splitFirst sep s = none) : pySplitF sep n s = [s] := by
  cases n with
  | zero => rfl
  | succ n => simp [pySplitF, h]

theorem pySplitF_head (sep : List Char) (hsep : sep ≠ []) (n : Nat)
    (a : List Char) (hlen : a.length ≤ n) :
    (pySplitF sep n a).get? 0 = some (beforeFirstOcc sep a) := by
  cases n with
  | zero =>
    have ha : a = [] := List.length_eq_zero.mp (Nat.le_zero.mp hlen)
    subst ha
    have hse : sep.isEmpty = false := by
      cases sep with
      | nil => exact absurd rfl hsep
      | cons x xs => rfl
    simp [pySplitF, beforeFirstOcc, splitFirst, hse]
  | succ n =>
    cases h : splitFirst sep a with
    | none => simp [pySplitF, h, beforeFirstOcc]
    | some p =>
      cases p with
      | mk b' a' => simp [pySplitF, h, beforeFirstOcc]

/-- C9 (counterexample): on a snapshot with two occurrences of `"88/89"`,
the main script passes only the segment between the first and the second
occurrence (`"B"`), not the whole portion strictly after the first
occurrence (`"B88/89C"`), refuting the claim as stated. -/
theorem mainLlmInput_counterexample :
    mainLlmInput "A88/89B88/89C" = some "B"
    ∧ afterFirstOcc sepMarker "A88/89B88/89C".data = some "B88/89C".data
    ∧ ("B" : String) ≠ "B88/89C" :=
  ⟨by rfl, by rfl, by decide⟩

/-- C9 (amended): the main pipeline passes to the Content Normalizer the
`[1]` element of splitting the snapshot on `"88/89"` — the portion strictly
after the first occurrence of the marker and up to (not including) its
second occurrence, when one exists; and for every snapshot not containing
the marker, the indexing fails (uncaught `IndexError`) and the run aborts
before the field-mapping step is invoked. -/
theorem mainLlmInput_spec (html : String) :
    (splitFirst sepMarker html.data = none → mainLlmInput html = none)
    ∧ (∀ b a, splitFirst sepMarker html.data = some (b, a) →
        mainLlmInput html = some (String.mk (beforeFirstOcc sepMarker a))) := by
  constructor
  · intro h
    unfold mainLlmInput pySplit
    rw [pySplitF_of_none _ _ _ h]
    rfl
  · intro b a h
    have hsep : sepMarker ≠ [] := by decide
    have hlt := splitFirst_after_lt sepMarker hsep html.data b a h
    cases hlen : html.data.length with
    | zero => omega
    | succ m =>
      unfold mainLlmInput pySplit
      rw [hlen]
      rw [show pySplitF sepMarker (m + 1) html.data
          = b :: pySplitF sepMarker m a from by simp [pySplitF, h]]
      have hget : (pySplitF sepMarker m a).get? 0
          = some (beforeFirstOcc sepMarker a) :=
        pySplitF_head sepMarker hsep m a (by omega)
      have h1 : (b :: pySplitF sepMarker m a).get? 1
          = (pySplitF sepMarker m a).get? 0 := rfl
      rw [h1, hget]
      rfl

/-- C9 witness: a snapshot without the marker aborts; the two-occurrence
snapshot passes the middle segment. -/
theorem mainLlmInput_spec_witness :
    mainLlmInput "no marker here" = none
    ∧ mainLlmInput "A88/89B88/89C" = some "B" :=
  ⟨(mainLlmInput_spec "no marker here").1 (by rfl),
   ((mainLlmInput_spec "A88/89B88/89C").2 "A".data "B88/89C".data
      (by rfl)).trans (by rfl)⟩

/-! ### The content normalizer (lines 134-142 of `analyze_with_llm`) -/

mutual
/-- One node of the parsed HTML snapshot. -/
inductive HNode where
  | text : String → HNode
  | elem : String → HForest → HNode
/-- A sibling list of HTML nodes. -/
inductive HForest where
  | nil : HForest
  | cons : HNode → HForest → HForest
end

/-- Line 136: the fixed denylist passed to `soup([...])`. -/
def denyTags : List String :=
  ["script", "style", "svg", "footer", "nav", "header", "button"]

mutual
/-- Lines 136-137: `tag.decompose()` removes every element whose tag is on
the denylist together with its whole subtree; `none` means removed. -/
def decomposeN (deny : List String) : HNode → Option HNode
  | .text s => some (.text s)
  | .elem tag cs =>
    if tag ∈ deny then none else some (.elem tag (decomposeF deny cs))
/-- Denylist removal over a sibling list. -/
def decomposeF (deny : List String) : HForest → HForest
  | .nil => .nil
  | .cons n f =>
    match decomposeN deny n with
    | none => decomposeF deny f
    | some n' => .cons n' (decomposeF deny f)
end

mutual
/-- The document-order list of text-node strings of a node. -/
def textsN : HNode → List String
  | .text s => [s]
  | .elem _ cs => textsF cs
/-- The document-order list of text-node strings of a sibling list. -/
def textsF : HForest → List String
  | .nil => []
  | .cons n f => textsN n ++ textsF f
end

/-- Line 139: `soup.get_text(separator='\n')`. -/
def getText (f : HForest) : String := String.intercalate "\n" (textsF f)

mutual
/-- Whether a node still holds an element with a denylisted tag. -/
def hasDeniedN (deny : List String) : HNode → Bool
  | .text _ => false
  | .elem tag cs => decide (tag ∈ deny) || hasDeniedF deny cs
/-- Whether a sibling list still holds an element with a denylisted tag. -/
def hasDeniedF (deny : List String) : HForest → Bool
  | .nil => false
  | .cons n f => hasDeniedN deny n || hasDeniedF deny f
end

/-- Python's line-boundary characters for `str.splitlines`. -/
def isLB (c : Char) : Bool :=
  c == '\n' || c == '\r' || c == '\x0b' || c == '\x0c' ||
  c == '\x1c' || c == '\x1d' || c == '\x1e' || c == '\x85' ||
  c == '\u2028' || c == '\u2029'

/-- The scanner behind `str.splitlines`: `cur` holds the current line
reversed.  `\r\n` counts as one boundary; a trailing boundary does not
open a final empty line. -/
def slGo (cur : List Char) : List Char → List (List Char)
  | [] => [cur.reverse]
  | [c] => if isLB c then [cur.reverse] else [(c :: cur).reverse]
  | c :: d :: rest =>
    if isLB c then
      if c == '\r' && d == '\n' then
        match rest with
        | [] => [cur.reverse]
        | _ :: _ => cur.reverse :: slGo [] rest
      else cur.reverse :: slGo [] (d :: rest)
    else slGo (c :: cur) (d :: rest)

/-- Python `str.splitlines` (empty string has no lines). -/
def pySplitlines : List Char → List (List Char)
  | [] => []
  | c :: rest => slGo [] (c :: rest)

/-- Python `"\n".join` on char lists. -/
def joinLines : List (List Char) → List Char
  | [] => []
  | l :: ls =>
    l ++ (match ls with
      | [] => []
      | _ :: _ => '\n' :: joinLines ls)

/-- Lines 139-141: flatten the decomposed snapshot to newline-separated
text, strip every line, drop the blank lines, re-join with newlines. -/
def cleanJoined (doc : HForest) : String :=
  String.mk (joinLines
    (((pySplitlines (getText (decomposeF denyTags doc)).data).map pyStrip).filter
      (· ≠ [])))

/-- Line 142: the fixed character budget of `clean_text[:15000]`. -/
def charBudget : Nat := 15000

/-- The text handed to the language model. -/
def handedText (doc : HForest) : String :=
  String.mk ((cleanJoined doc).data.take charBudget)

mutual
/-- A node surviving decomposition holds no denylisted element. -/
theorem hasDeniedN_decomposeN (deny : List String) :
    (n : HNode) → ∀ n', decomposeN deny n = some n' → hasDeniedN deny n' = false
  | .text s => by
    intro n' h
    have h' : HNode.text s = n' := by simpa [decomposeN] using h
    subst h'
    rfl
  | .elem tag cs => by
    intro n' h
    by_cases ht : tag ∈ deny
    · simp [decomposeN, ht] at h
    · have h' : HNode.elem tag (decomposeF deny cs) = n' := by
        simpa [decomposeN, ht] using h
      subst h'
      have hf := hasDeniedF_decomposeF deny cs
      simp [hasDeniedN, ht, hf]
/-- A decomposed sibling list holds no denylisted element. -/
theorem hasDeniedF_decomposeF (deny : List String) :
    (f : HForest) → hasDeniedF deny (decomposeF deny f) = false
  | .nil => rfl
  | .cons n f => by
    cases h : decomposeN deny n with
    | none =>
      have hd : decomposeF deny (.cons n f) = decomposeF deny f := by
        simp [decomposeF, h]
      rw [hd]
      exact hasDeniedF_decomposeF deny f
    | some n' =>
      have hd : decomposeF deny (.cons n f) = .cons n' (decomposeF deny f) := by
        simp [decomposeF, h]
      rw [hd]
      have h1 := hasDeniedN_decomposeN deny n n' h
      have h2 := hasDeniedF_decomposeF deny f
      simp [hasDeniedF, h1, h2]
end

/-- Scanning a boundary-free prefix only accumulates it. -/
theorem slGo_append (l : List Char) :
    ∀ (hl : ∀ c ∈ l, isLB c = false) (cur s : List Char),
      slGo cur (l ++ s) = slGo (l.reverse ++ cur) s := by
  induction l with
  | nil =>
    intro _ cur s
    simp
  | cons c l' ih =>
    intro hl cur s
    have hc : isLB c = false := hl c (List.mem_cons_self _ _)
    have hl' : ∀ x ∈ l', isLB x = false := fun x hx =>
      hl x (List.mem_cons_of_mem _ hx)
    simp only [List.cons_append]
    cases hx : l' ++ s with
    | nil =>
      rcases List.append_eq_nil.mp hx with ⟨hl0, hs0⟩
      subst hl0
      subst hs0
      simp [slGo, hc]
    | cons d t =>
      have hstep : slGo cur (c :: d :: t) = slGo (c :: cur) (d :: t) := by
        simp [slGo, hc]
      rw [hstep, ← hx, ih hl' (c :: cur) s]
      simp

/-- Every line produced by the splitlines scanner is boundary-free, given a
boundary-free accumulator. -/
theorem slGo_no_lb : ∀ (n : Nat) (s : List Char), s.length ≤ n →
    ∀ cur, (∀ c ∈ cur, isLB c = false) →
    ∀ l ∈ slGo cur s, ∀ c ∈ l, isLB c = false := by
  intro n
  induction n with
  | zero =>
    intro s hs cur hcur l hl c hc
    have h0 : s = [] := List.length_eq_zero.mp (Nat.le_zero.mp hs)
    subst h0
    simp [slGo] at hl
    subst hl
    exact hcur c (List.mem_reverse.mp hc)
  | succ n ih =>
    intro s hs cur hcur l hl c hc
    cases s with
    | nil =>
      simp [slGo] at hl
      subst hl
      exact hcur c (List.mem_reverse.mp hc)
    | cons x rest =>
      cases rest with
      | nil =>
        by_cases hx : isLB x = true
        · simp [slGo, hx] at hl
          subst hl
          exact hcur c (List.mem_reverse.mp hc)
        · have hx' : isLB x = false := by simpa using hx
          simp [slGo, hx'] at hl
          subst hl
          rcases List.mem_append.mp hc with h1 | h1
          · exact hcur c (List.mem_reverse.mp h1)
          · have h2 : c = x := by simpa using h1
            rw [h2]
            exact hx'
      | cons d t =>
        by_cases hx : isLB x = true
        · by_cases hrn : (x == '\r' && d == '\n') = true
          · cases t with
            | nil =>
              have hstep : slGo cur [x, d] = [cur.reverse] := by
                simp [slGo, hx, hrn]
              rw [hstep] at hl
              simp at hl
              subst hl
              exact hcur c (List.mem_reverse.mp hc)
            | cons e t' =>
              have hstep : slGo cur (x :: d :: e :: t')
                  = cur.reverse :: slGo [] (e :: t') := by
                simp [slGo, hx, hrn]
              rw [hstep] at hl
              rcases List.mem_cons.mp hl with h1 | h1
              · subst h1; exact hcur c (List.mem_reverse.mp hc)
              · refine ih (e :: t') ?_ [] (by simp) l h1 c hc
                simp only [List.length_cons] at hs ⊢
                omega
          · have hrn' : (x == '\r' && d == '\n') = false := by simpa using hrn
            have hstep : slGo cur (x :: d :: t)
                = cur.reverse :: slGo [] (d :: t) := by
              simp [slGo, hx, hrn']
            rw [hstep] at hl
            rcases List.mem_cons.mp hl with h1 | h1
            · subst h1; exact hcur c (List.mem_reverse.mp hc)
            · refine ih (d :: t) ?_ [] (by simp) l h1 c hc
              simp only [List.length_cons] at hs ⊢
              omega
        · have hx' : isLB x = false := by simpa using hx
          have hstep : slGo cur (x :: d :: t) = slGo (x :: cur) (d :: t) := by
            simp [slGo, hx']
          rw [hstep] at hl
          refine ih (d :: t) ?_ (x :: cur) ?_ l hl c hc
          · simp only [List.length_cons] at hs ⊢
            omega
          · intro y hy
            rcases List.mem_cons.mp hy with h1 | h1
            · rw [h1]; exact hx'
            · exact hcur y h1

/-- Every line of `str.splitlines` is boundary-free. -/
theorem pySplitlines_no_lb (s l : List Char) (hl : l ∈ pySplitlines s)
    (c : Char) (hc : c ∈ l) : isLB c = false := by
  cases s with
  | nil => simp [pySplitlines] at hl
  | cons x rest =>
    exact slGo_no_lb (x :: rest).length (x :: rest) le_rfl [] (by simp) l hl c hc

/-- Characters of the stripped string come from the original. -/
theorem mem_pyStrip (s : List Char) (c : Char) (h : c ∈ pyStrip s) : c ∈ s := by
  rcases pyStrip_context s with ⟨a, b, hab⟩
  rw [hab]
  simp [h]

/-- Joining non-empty boundary-free lines with newlines and re-scanning
recovers exactly those lines. -/
theorem slGo_joinAll :
    ∀ (ps : List (List Char)),
      (∀ l ∈ ps, l ≠ [] ∧ ∀ c ∈ l, isLB c = false) → ps ≠ [] →
      slGo [] (joinLines ps) = ps := by
  intro ps
  induction ps with
  | nil => intro _ h; exact absurd rfl h
  | cons p ps' ih =>
    intro h _
    have hp := h p (List.mem_cons_self _ _)
    have hps' : ∀ l ∈ ps', l ≠ [] ∧ ∀ c ∈ l, isLB c = false := fun l hl =>
      h l (List.mem_cons_of_mem _ hl)
    cases ps' with
    | nil =>
      have hj : joinLines [p] = p ++ ([] : List Char) := by simp [joinLines]
      rw [hj, slGo_append p hp.2 [] []]
      simp [slGo]
    | cons q ps'' =>
      have hq := hps' q (List.mem_cons_self _ _)
      have hj : joinLines (p :: q :: ps'')
          = p ++ ('\n' :: joinLines (q :: ps'')) := by simp [joinLines]
      rw [hj, slGo_append p hp.2 [] _]
      obtain ⟨d, q0, rfl⟩ : ∃ d q0, q = d :: q0 := by
        cases q with
        | nil => exact absurd rfl hq.1
        | cons d q0 => exact ⟨d, q0, rfl⟩
      obtain ⟨tt, hshape⟩ : ∃ tt, joinLines ((d :: q0) :: ps'') = d :: tt := by
        cases ps'' with
        | nil => exact ⟨q0, by simp [joinLines]⟩
        | cons r rs => exact ⟨q0 ++ ('\n' :: joinLines (r :: rs)), by simp [joinLines]⟩
      have hLB : isLB '\n' = true := by decide
      have hRN : (('\n' : Char) == '\r' && d == '\n') = false := by
        have hne : (('\n' : Char) == '\r') = false := by decide
        simp [hne]
      have hstep : slGo (p.reverse ++ []) ('\n' :: joinLines ((d :: q0) :: ps''))
          = (p.reverse ++ []).reverse :: slGo [] (joinLines ((d :: q0) :: ps'')) := by
        rw [hshape]
        simp [slGo, hLB, hRN]
      rw [hstep, ih hps' (by simp)]
      simp

/-- Python `str.splitlines` is a left inverse of joining non-empty boundary-free
lines with newlines. -/
theorem pySplitlines_joinLines (ps : List (List Char))
    (h : ∀ l ∈ ps, l ≠ [] ∧ ∀ c ∈ l, isLB c = false) :
    pySplitlines (joinLines ps) = ps := by
  cases ps with
  | nil => rfl
  | cons p ps' =>
    have hp := h p (List.mem_cons_self _ _)
    obtain ⟨d, p0, rfl⟩ : ∃ d p0, p = d :: p0 := by
      cases p with
      | nil => exact absurd rfl hp.1
      | cons d p0 => exact ⟨d, p0, rfl⟩
    obtain ⟨tt, hshape⟩ : ∃ tt, joinLines ((d :: p0) :: ps') = d :: tt := by
      cases ps' with
      | nil => exact ⟨p0, by simp [joinLines]⟩
      | cons r rs => exact ⟨p0 ++ ('\n' :: joinLines (r :: rs)), by simp [joinLines]⟩
    have hps : pySplitlines (joinLines ((d :: p0) :: ps'))
        = slGo [] (joinLines ((d :: p0) :: ps')) := by
      rw [hshape]
      rfl
    rw [hps]
    exact slGo_joinAll _ h (by simp)

/-- C8 (claim): the Content Normalizer removes every script, style, svg,
footer, nav, header and button element before text extraction; the
flattened newline-separated text has only trimmed, non-empty lines; and the
text handed to the language model is at most 15000 characters long. -/
theorem analyze_clean_spec (doc : HForest) :
    hasDeniedF denyTags (decomposeF denyTags doc) = false
    ∧ (∀ l ∈ pySplitlines (cleanJoined doc).data, pyStrip l = l ∧ l ≠ [])
    ∧ (handedText doc).length ≤ 15000 := by
  refine ⟨hasDeniedF_decomposeF denyTags doc, ?_, ?_⟩
  · have hok : ∀ l ∈ ((pySplitlines
        (getText (decomposeF denyTags doc)).data).map pyStrip).filter (· ≠ []),
        l ≠ [] ∧ ∀ c ∈ l, isLB c = false := by
      intro l hl
      rcases List.mem_filter.mp hl with ⟨hmem, hne⟩
      rcases List.mem_map.mp hmem with ⟨l0, hl0, rfl⟩
      refine ⟨by simpa using hne, ?_⟩
      intro c hc
      exact pySplitlines_no_lb _ l0 hl0 c (mem_pyStrip l0 c hc)
    intro l hl
    have hdata : (cleanJoined doc).data = joinLines (((pySplitlines
        (getText (decomposeF denyTags doc)).data).map pyStrip).filter (· ≠ [])) :=
      rfl
    rw [hdata, pySplitlines_joinLines _ hok] at hl
    rcases List.mem_filter.mp hl with ⟨hmem, hne⟩
    rcases List.mem_map.mp hmem with ⟨l0, hl0, rfl⟩
    exact ⟨pyStrip_pyStrip l0, by simpa using hne⟩
  · have hlen : (handedText doc).length
        = ((cleanJoined doc).data.take charBudget).length := rfl
    rw [hlen, List.length_take]
    exact le_trans (min_le_left _ _) (by norm_num [charBudget])

/-- A small snapshot: a `div` holding one text node and a denylisted
`script` child. -/
def sampleDoc : HForest :=
  .cons (.elem "div"
    (.cons (.text "  Mileage \n 500 km ")
      (.cons (.elem "script" (.cons (.text "junk();") .nil)) .nil))) .nil

/-- C8 witness: the normalized text of `sampleDoc` has `Mileage` as a line,
and that line is trimmed and non-empty. -/
theorem analyze_clean_spec_witness :
    pyStrip "Mileage".data = "Mileage".data ∧ "Mileage".data ≠ [] :=
  (analyze_clean_spec sampleDoc).2.1 "Mileage".data (by decide)

end Fleequid
